import Mathlib

/-!
Verification of the interactive time-series dashboard
(`interactive_time_series_dashboard.py`).

Timestamps are modelled as natural numbers counting seconds since the Unix
epoch; the Python code works with second-precision `datetime` values, and
every date/hour/minute/second component used by the program is recovered
from that second count. Sample values are rationals (`ℚ`), standing in for
the floats produced by `np.random.rand`; the random number generator is
abstracted as an arbitrary function `val : ℕ → ℕ → ℚ` giving the value
drawn in the loop iteration for day `i`, second `s`.
-/

/-- Calendar-date component of a timestamp, encoded as the absolute day
number since the epoch (pandas `.dt.date` / `datetime.date()`). -/
def dateOf (t : ℕ) : ℕ := t / 86400

/-- Hour-of-day component of a timestamp (pandas `.dt.hour` / `.hour`). -/
def hourOf (t : ℕ) : ℕ := t % 86400 / 3600

/-- Minute component of a timestamp (`.minute`). -/
def minuteOf (t : ℕ) : ℕ := t % 3600 / 60

/-- Second component of a timestamp (`.second`). -/
def secondOf (t : ℕ) : ℕ := t % 60

/-- Python `t.replace(minute=0, second=0)`: keep the date and hour
components and zero the minute and second, i.e. truncate to the hour. -/
def replaceMinSec0 (t : ℕ) : ℕ := t - t % 3600

/-- Python `generate_mock_data(start_date, num_days)`: for each day `i`
below `num_days` and each second `s` of that day, one sample
`(start_date + i days + s seconds, value)` appended in loop order. -/
def generate_mock_data (start_day : ℕ) (num_days : ℕ) (val : ℕ → ℕ → ℚ) :
    List (ℕ × ℚ) :=
  (List.range num_days).flatMap fun i =>
    (List.range 86400).map fun s => (start_day + i * 86400 + s, val i s)

/-- Python `start_date = datetime(2024, 1, 1)`, as seconds since the epoch
(19723 days of 86400 seconds). -/
def start_date : ℕ := 1704067200

/-- Python `df = generate_mock_data(start_date)` with the default
`num_days = 7`. -/
def df (val : ℕ → ℕ → ℚ) : List (ℕ × ℚ) := generate_mock_data start_date 7 val

/-- Arithmetic mean of a list of rationals (pandas `.mean()` on a group). -/
def listMean (l : List ℚ) : ℚ := l.sum / (l.length : ℚ)

/-- Pandas `groupby(key)['value'].mean()`: one row per distinct key, in
first-occurrence order (which for `df` is ascending), whose value is the
mean of the `value` column over the rows having that key. -/
def groupMeans (l : List (ℕ × ℚ)) (key : ℕ → ℕ) : List (ℕ × ℚ) :=
  ((l.map fun p => key p.1).dedup).map fun k =>
    (k, listMean ((l.filter fun p => key p.1 = k).map Prod.snd))

/-- Python `daily_avg`: `df` grouped by the calendar date of the timestamp,
value column averaged. The row's plotting timestamp
(`pd.to_datetime(date)`, midnight of the date) is recovered as
`key * 86400`. -/
def daily_avg (val : ℕ → ℕ → ℚ) : List (ℕ × ℚ) := groupMeans (df val) dateOf

/-- Python `hourly_avg`: `df` grouped by the (date, hour) pair, value
column averaged. The pair is encoded injectively as the absolute hour
number `t / 3600`; the row's plotting timestamp
(`pd.to_datetime(date) + hour`) is recovered as `key * 3600`. -/
def hourly_avg (val : ℕ → ℕ → ℚ) : List (ℕ × ℚ) :=
  groupMeans (df val) (fun t => t / 3600)

/-- Python `create_weekly_chart()`: the scatter data of the weekly figure,
x = `daily_avg['timestamp']` (midnight of each date), y = daily mean. -/
def create_weekly_chart (val : ℕ → ℕ → ℚ) : List (ℕ × ℚ) :=
  (daily_avg val).map fun r => (r.1 * 86400, r.2)

/-- Python `create_daily_chart(date)`: the rows of `hourly_avg` whose
plotting timestamp has calendar date `date`; x = that timestamp,
y = hourly mean. -/
def create_daily_chart (val : ℕ → ℕ → ℚ) (date : ℕ) : List (ℕ × ℚ) :=
  ((hourly_avg val).filter fun r => dateOf (r.1 * 3600) = date).map
    fun r => (r.1 * 3600, r.2)

/-- Python `create_hourly_chart(date, hour)`: the raw samples of `df` with
`start_time ≤ timestamp < start_time + 1 hour` where
`start_time = pd.Timestamp(date) + hour hours`. -/
def create_hourly_chart (val : ℕ → ℕ → ℚ) (date hour : ℕ) : List (ℕ × ℚ) :=
  (df val).filter fun p =>
    date * 86400 + hour * 3600 ≤ p.1 ∧ p.1 < date * 86400 + hour * 3600 + 3600

/-- Python `create_second_chart(start_time)`: the raw samples of `df` with
`start_time ≤ timestamp < start_time + 1 minute`. -/
def create_second_chart (val : ℕ → ℕ → ℚ) (start_time : ℕ) : List (ℕ × ℚ) :=
  (df val).filter fun p => start_time ≤ p.1 ∧ p.1 < start_time + 60

/-- Which Dash input fired the `update_graph` callback: none
(`not ctx.triggered`, the initial render), the reset button, or the chart
(a click). -/
inductive Trigger where
  | initial
  | resetButton
  | chart

/-- Python `update_graph(clickData, n_clicks, current_view)`: returns the
figure (modelled by its scatter data) and the new `current-view` store
value. `clickData` is modelled by the clicked x-axis timestamp, when
present. -/
def update_graph (val : ℕ → ℕ → ℚ) (trigger : Trigger) (clickData : Option ℕ)
    (current_view : String) : List (ℕ × ℚ) × String :=
  match trigger with
  | .initial => (create_weekly_chart val, "weekly")
  | .resetButton => (create_weekly_chart val, "weekly")
  | .chart =>
      match clickData with
      | some t =>
          if current_view = "weekly" then
            (create_daily_chart val (dateOf t), "daily")
          else if current_view = "daily" then
            (create_hourly_chart val (dateOf t) (hourOf t), "hourly")
          else if current_view = "hourly" then
            (create_second_chart val (replaceMinSec0 t), "second")
          else
            (create_weekly_chart val, "weekly")
      | none => (create_weekly_chart val, "weekly")

/-!
List decomposition machinery: splitting `List.range` into equal-size
blocks, selecting the unique block surviving a filter, and pushing sums
and means through the decomposition.
-/

/-- Unfolding of `df` to its generator expression. -/
theorem df_eq_flatMap (val : ℕ → ℕ → ℚ) :
    df val = (List.range 7).flatMap fun i =>
      (List.range 86400).map fun s => (1704067200 + i * 86400 + s, val i s) :=
  rfl

/-- Pointwise congruence for `flatMap`. -/
theorem flatMap_congr_mem {α β : Type} (l : List α) (f g : α → List β)
    (h : ∀ a ∈ l, f a = g a) : l.flatMap f = l.flatMap g := by
  induction l with
  | nil => rfl
  | cons x xs ih =>
      simp only [List.flatMap_cons]
      rw [h x (List.mem_cons_self x xs),
        ih fun a ha => h a (List.mem_cons_of_mem x ha)]

/-- A range of `n * b` indices splits into `n` consecutive blocks of `b`. -/
theorem range_mul_flatMap (n b : ℕ) :
    List.range (n * b)
      = (List.range n).flatMap fun i => (List.range b).map fun j => i * b + j := by
  induction n with
  | zero => simp
  | succ n ih =>
      rw [Nat.succ_mul, List.range_add, List.range_succ, List.flatMap_append, ← ih]
      simp

/-- A `flatMap` whose blocks are empty except possibly the one selected by
the condition `c + i = d` collapses to that block. -/
theorem flatMap_if_eq {α : Type} (n c d : ℕ) (f : ℕ → List α) :
    ((List.range n).flatMap fun i => if c + i = d then f i else [])
      = if c ≤ d ∧ d < c + n then f (d - c) else [] := by
  induction n with
  | zero =>
      simp only [List.range_zero, List.flatMap_nil]
      rw [if_neg (by omega)]
  | succ n ih =>
      rw [List.range_succ, List.flatMap_append, ih]
      simp only [List.flatMap_cons, List.flatMap_nil, List.append_nil]
      by_cases h1 : c + n = d
      · rw [if_pos h1, if_neg (by omega), if_pos (by omega), List.nil_append]
        have hd : d - c = n := by omega
        rw [hd]
      · rw [if_neg h1, List.append_nil]
        by_cases h2 : c ≤ d ∧ d < c + n
        · rw [if_pos h2, if_pos (by omega)]
        · rw [if_neg h2, if_neg (by omega)]

/-- Filtering a range by a half-open interval keeps exactly that interval. -/
theorem range_filter_Ico (n a b : ℕ) (hbn : b ≤ n) :
    ((List.range n).filter fun s => a ≤ s ∧ s < b)
      = (List.range (b - a)).map fun j => a + j := by
  rcases le_or_lt b a with hba | hab
  · rw [List.filter_eq_nil_iff.mpr fun s _ => by
      simp only [decide_eq_true_eq]; omega]
    have hb0 : b - a = 0 := by omega
    rw [hb0]
    simp
  · have hn : n = b + (n - b) := by omega
    rw [hn, List.range_add, List.filter_append]
    have h2 : ((List.range (n - b)).map (b + ·)).filter
        (fun s => a ≤ s ∧ s < b) = [] := by
      refine List.filter_eq_nil_iff.mpr fun s hs => ?_
      obtain ⟨j, hj, rfl⟩ := List.mem_map.mp hs
      simp only [decide_eq_true_eq]
      omega
    rw [h2, List.append_nil]
    have hb : b = a + (b - a) := by omega
    rw [hb, List.range_add, List.filter_append]
    have h3 : (List.range a).filter (fun s => a ≤ s ∧ s < a + (b - a)) = [] := by
      refine List.filter_eq_nil_iff.mpr fun s hs => ?_
      have := List.mem_range.mp hs
      simp only [decide_eq_true_eq]
      omega
    rw [h3, List.nil_append]
    rw [List.filter_eq_self.mpr fun s hs => ?_]
    · have hba2 : a + (b - a) - a = b - a := by omega
      rw [hba2]
    · obtain ⟨j, hj, rfl⟩ := List.mem_map.mp hs
      have := List.mem_range.mp hj
      simp only [decide_eq_true_eq]
      omega

/-- Sum of a `flatMap` of rational lists is the sum of the block sums. -/
theorem sum_flatMap_q {α : Type} (l : List α) (f : α → List ℚ) :
    (l.flatMap f).sum = (l.map fun a => (f a).sum).sum := by
  induction l with
  | nil => rfl
  | cons x xs ih => simp [ih]

/-- Dividing each summand by a constant divides the sum. -/
theorem sum_map_div_q {α : Type} (l : List α) (f : α → ℚ) (c : ℚ) :
    (l.map fun a => f a / c).sum = (l.map f).sum / c := by
  induction l with
  | nil => simp
  | cons x xs ih => simp [ih, add_div]

/-- Head of a mapped nonempty range. -/
theorem head_map_range {α : Type} (n : ℕ) (f : ℕ → α) (hn : 0 < n) :
    ((List.range n).map f).head? = some (f 0) := by
  obtain ⟨m, rfl⟩ : ∃ m, n = m + 1 := ⟨n - 1, by omega⟩
  rw [List.range_succ_eq_map]
  simp

/-- Last element of a mapped nonempty range. -/
theorem getLast_map_range {α : Type} (n : ℕ) (f : ℕ → α) (hn : 0 < n) :
    ((List.range n).map f).getLast? = some (f (n - 1)) := by
  obtain ⟨m, rfl⟩ : ∃ m, n = m + 1 := ⟨n - 1, by omega⟩
  rw [List.range_succ, List.map_append]
  simp

/-- Every timestamp of `df` lies in the seven-day span starting at
`start_date`. -/
theorem df_fst_bound (val : ℕ → ℕ → ℚ) (p : ℕ × ℚ) (hp : p ∈ df val) :
    1704067200 ≤ p.1 ∧ p.1 < 1704672000 := by
  rw [df_eq_flatMap] at hp
  obtain ⟨i, hi, hp2⟩ := List.mem_flatMap.mp hp
  obtain ⟨s, hs, rfl⟩ := List.mem_map.mp hp2
  have hi7 := List.mem_range.mp hi
  have hs86 := List.mem_range.mp hs
  simp only []
  omega

/-- Filtering a mapped range by a predicate that reduces on indices to a
half-open interval keeps exactly that interval's images. -/
theorem filter_map_range_interval {β : Type} (g : ℕ → β) (a b n : ℕ)
    (q : β → Bool) (hb : b ≤ n)
    (hq : ∀ s ∈ List.range n, (q ∘ g) s = (fun s => decide (a ≤ s ∧ s < b)) s) :
    ((List.range n).map g).filter q
      = (List.range (b - a)).map fun j => g (a + j) := by
  rw [List.filter_map, List.filter_congr hq, range_filter_Ico n a b hb,
    List.map_map]
  rfl

/-- Master window lemma: filtering `df` by a window of `len` seconds lying
inside the in-span day `d` (offset `off` from midnight) returns exactly the
`len` consecutive samples of that window. -/
theorem df_filter_inday (val : ℕ → ℕ → ℚ) (d off len : ℕ)
    (hd1 : 19723 ≤ d) (hd2 : d < 19730) (hlen : off + len ≤ 86400) :
    ((df val).filter fun p =>
        d * 86400 + off ≤ p.1 ∧ p.1 < d * 86400 + off + len)
      = (List.range len).map fun s =>
          (d * 86400 + off + s, val (d - 19723) (off + s)) := by
  have hblocks : ∀ i ∈ List.range 7,
      (((List.range 86400).map fun s =>
          (1704067200 + i * 86400 + s, val i s)).filter fun p =>
            d * 86400 + off ≤ p.1 ∧ p.1 < d * 86400 + off + len)
        = if 19723 + i = d then
            (List.range len).map fun s =>
              (1704067200 + i * 86400 + off + s, val i (off + s))
          else [] := by
    intro i hi
    have hi7 := List.mem_range.mp hi
    by_cases hid : 19723 + i = d
    · rw [if_pos hid]
      rw [filter_map_range_interval _ off (off + len) 86400 _ (by omega)
        (fun s hs => ?_)]
      · have hol : off + len - off = len := by omega
        rw [hol]
        refine List.map_congr_left fun j hj => ?_
        simp only [Prod.mk.injEq]
        exact ⟨by omega, by simp⟩
      · have hs86 := List.mem_range.mp hs
        simp only [Function.comp_apply, decide_eq_decide]
        omega
    · rw [if_neg hid]
      refine List.filter_eq_nil_iff.mpr fun p hp => ?_
      obtain ⟨s, hs, rfl⟩ := List.mem_map.mp hp
      have hs86 := List.mem_range.mp hs
      simp only [decide_eq_true_eq]
      omega
  rw [df_eq_flatMap, List.filter_flatMap, flatMap_congr_mem _ _ _ hblocks,
    flatMap_if_eq, if_pos (by omega)]
  refine List.map_congr_left fun s hs => ?_
  simp only [Prod.mk.injEq]
  exact ⟨by omega, by simp⟩

/-- Filtering `df` by an in-span calendar date returns exactly that day's
86400 samples. -/
theorem df_filter_date (val : ℕ → ℕ → ℚ) (d : ℕ)
    (hd1 : 19723 ≤ d) (hd2 : d < 19730) :
    ((df val).filter fun p => dateOf p.1 = d)
      = (List.range 86400).map fun s => (d * 86400 + s, val (d - 19723) s) := by
  have hcong : ∀ p ∈ df val,
      (fun p : ℕ × ℚ => decide (dateOf p.1 = d)) p
        = (fun p : ℕ × ℚ =>
            decide (d * 86400 + 0 ≤ p.1 ∧ p.1 < d * 86400 + 0 + 86400)) p := by
    intro p hp
    simp only [decide_eq_decide, dateOf]
    omega
  rw [List.filter_congr hcong, df_filter_inday val d 0 86400 hd1 hd2 (by omega)]
  refine List.map_congr_left fun s hs => ?_
  simp only [Prod.mk.injEq]
  exact ⟨by omega, by simp⟩

/-- Filtering `df` by an in-span (date, hour) group key returns exactly
that hour's 3600 samples. -/
theorem df_filter_hourkey (val : ℕ → ℕ → ℚ) (d h : ℕ)
    (hd1 : 19723 ≤ d) (hd2 : d < 19730) (hh : h < 24) :
    ((df val).filter fun p => p.1 / 3600 = d * 24 + h)
      = (List.range 3600).map fun s =>
          (d * 86400 + h * 3600 + s, val (d - 19723) (h * 3600 + s)) := by
  have hcong : ∀ p ∈ df val,
      (fun p : ℕ × ℚ => decide (p.1 / 3600 = d * 24 + h)) p
        = (fun p : ℕ × ℚ => decide (d * 86400 + h * 3600 ≤ p.1 ∧
            p.1 < d * 86400 + h * 3600 + 3600)) p := by
    intro p hp
    simp only [decide_eq_decide]
    omega
  rw [List.filter_congr hcong]
  exact df_filter_inday val d (h * 3600) 3600 hd1 hd2 (by omega)

/-- Every in-span date occurs as a grouping key of `df`. -/
theorem mem_df_dateKey (val : ℕ → ℕ → ℚ) (d : ℕ)
    (hd1 : 19723 ≤ d) (hd2 : d < 19730) :
    d ∈ (df val).map fun p => dateOf p.1 := by
  rw [df_eq_flatMap]
  refine List.mem_map.mpr
    ⟨(1704067200 + (d - 19723) * 86400 + 0, val (d - 19723) 0), ?_, ?_⟩
  · exact List.mem_flatMap.mpr ⟨d - 19723, List.mem_range.mpr (by omega),
      List.mem_map.mpr ⟨0, List.mem_range.mpr (by omega), rfl⟩⟩
  · simp only [dateOf]
    omega

/-- Every in-span (date, hour) key occurs as a grouping key of `df`. -/
theorem mem_df_hourKey (val : ℕ → ℕ → ℚ) (d h : ℕ)
    (hd1 : 19723 ≤ d) (hd2 : d < 19730) (hh : h < 24) :
    d * 24 + h ∈ (df val).map fun p => p.1 / 3600 := by
  rw [df_eq_flatMap]
  refine List.mem_map.mpr
    ⟨(1704067200 + (d - 19723) * 86400 + h * 3600, val (d - 19723) (h * 3600)),
      ?_, ?_⟩
  · exact List.mem_flatMap.mpr ⟨d - 19723, List.mem_range.mpr (by omega),
      List.mem_map.mpr ⟨h * 3600, List.mem_range.mpr (by omega), rfl⟩⟩
  · simp only []
    omega

/-- Every grouping key of `hourly_avg` lies in the span's 168 hours. -/
theorem hourly_avg_key_bound (val : ℕ → ℕ → ℚ) (r : ℕ × ℚ)
    (hr : r ∈ hourly_avg val) : 473352 ≤ r.1 ∧ r.1 < 473520 := by
  unfold hourly_avg groupMeans at hr
  obtain ⟨k, hk, rfl⟩ := List.mem_map.mp hr
  have hk2 := List.mem_dedup.mp hk
  obtain ⟨p, hp, rfl⟩ := List.mem_map.mp hk2
  have hb := df_fst_bound val p hp
  simp only []
  omega

/-- C1: the `select(t)` transitions of the navigation machine. From Weekly
the next state is Daily with the calendar date of `t`; from Daily the next
state is Hourly with the date and hour of the clicked timestamp; from
Hourly the next state is the Minute ("second") view whose window start
keeps the date and hour of `t` and has minute = 0 and second = 0 (the
clicked minute and second are discarded). -/
theorem C1_select_transitions (val : ℕ → ℕ → ℚ) (t : ℕ) :
    update_graph val Trigger.chart (some t) "weekly"
        = (create_daily_chart val (dateOf t), "daily") ∧
    update_graph val Trigger.chart (some t) "daily"
        = (create_hourly_chart val (dateOf t) (hourOf t), "hourly") ∧
    update_graph val Trigger.chart (some t) "hourly"
        = (create_second_chart val (replaceMinSec0 t), "second") ∧
    dateOf (replaceMinSec0 t) = dateOf t ∧
    hourOf (replaceMinSec0 t) = hourOf t ∧
    minuteOf (replaceMinSec0 t) = 0 ∧
    secondOf (replaceMinSec0 t) = 0 := by
  refine ⟨rfl, rfl, rfl, ?_, ?_, ?_, ?_⟩ <;>
    simp only [dateOf, hourOf, minuteOf, secondOf, replaceMinSec0] <;> omega

/-- C3 counterexample: a chart click received in the `"second"` (Minute)
view does not leave the state unchanged — the handler falls through to the
default branch and the resulting view state is `"weekly"`. -/
theorem C3_counterexample :
    (update_graph (fun _ _ => 0) Trigger.chart (some 1704120000) "second").2
        = "weekly"
      ∧ ("weekly" : String) ≠ "second" :=
  ⟨rfl, by decide⟩

/-- C3 amended: a `select(t)` received in the Minute ("second") view is not
a no-op; it falls through to the default branch of `update_graph`, which
re-renders the weekly chart and sets the state back to Weekly. -/
theorem C3_amended (val : ℕ → ℕ → ℚ) (t : ℕ) :
    update_graph val Trigger.chart (some t) "second"
      = (create_weekly_chart val, "weekly") := rfl

/-- C4 counterexample: a chart trigger carrying no click payload while the
current state is `"hourly"` is not a no-op keeping the current state — the
handler returns state `"weekly"`. -/
theorem C4_counterexample :
    (update_graph (fun _ _ => 0) Trigger.chart none "hourly").2 = "weekly"
      ∧ ("weekly" : String) ≠ "hourly" :=
  ⟨rfl, by decide⟩

/-- C4 amended: every (state, event) pair outside the transition table is
handled by the fall-through branch, which resets: it returns the weekly
chart and state `"weekly"` (not the current state). This covers a chart
trigger with no click payload from any state, and a click from any
unrecognized state. -/
theorem C4_amended (val : ℕ → ℕ → ℚ) (s : String) :
    update_graph val Trigger.chart none s = (create_weekly_chart val, "weekly")
      ∧ (∀ t : ℕ, s ≠ "weekly" → s ≠ "daily" → s ≠ "hourly" →
          update_graph val Trigger.chart (some t) s
            = (create_weekly_chart val, "weekly")) := by
  refine ⟨rfl, fun t h1 h2 h3 => ?_⟩
  simp [update_graph, h1, h2, h3]

/-- C4 witness: the amended behavior at the concrete unrecognized state
`"second"` and clicked timestamp 5. -/
theorem C4_amended_witness :
    (("second" : String) ≠ "weekly" ∧ ("second" : String) ≠ "daily"
        ∧ ("second" : String) ≠ "hourly")
      ∧ update_graph (fun _ _ => 0) Trigger.chart (some 5) "second"
          = (create_weekly_chart (fun _ _ => 0), "weekly") :=
  ⟨⟨by decide, by decide, by decide⟩,
    (C4_amended (fun _ _ => 0) "second").2 5 (by decide) (by decide) (by decide)⟩

/-- C5: a reset event from any state and any click payload yields the
Weekly state, and the resulting figure/state pair is exactly the one
produced for the initial (untriggered) render. -/
theorem C5_reset_idempotent (val : ℕ → ℕ → ℚ) (clickData : Option ℕ)
    (s : String) :
    update_graph val Trigger.resetButton clickData s
        = (create_weekly_chart val, "weekly")
      ∧ update_graph val Trigger.resetButton clickData s
          = update_graph val Trigger.initial clickData s :=
  ⟨rfl, rfl⟩

/-- C2 counterexample: an out-of-span selection from Weekly (timestamp 0,
date 1970-01-01, before the 2024 span) does not resolve to the Weekly
state: the handler returns state `"daily"`. -/
theorem C2_counterexample :
    (update_graph (fun _ _ => 0) Trigger.chart (some 0) "weekly").2 = "daily"
      ∧ ("daily" : String) ≠ "weekly" :=
  ⟨rfl, by decide⟩

/-- C2 amended: a selection from Weekly whose clicked date is outside the
series span is not caught and not turned into a reset; the handler moves
to state `"daily"` and renders `create_daily_chart` on the out-of-span
date, whose data is empty (the filter over `hourly_avg` matches no row),
i.e. an empty chart is surfaced. -/
theorem C2_amended (val : ℕ → ℕ → ℚ) (t : ℕ)
    (hout : dateOf t < 19723 ∨ 19730 ≤ dateOf t) :
    update_graph val Trigger.chart (some t) "weekly"
        = (create_daily_chart val (dateOf t), "daily")
      ∧ create_daily_chart val (dateOf t) = [] := by
  refine ⟨rfl, ?_⟩
  unfold create_daily_chart
  have hnil : ((hourly_avg val).filter fun r => dateOf (r.1 * 3600) = dateOf t)
      = [] := by
    refine List.filter_eq_nil_iff.mpr fun r hr => ?_
    have hb := hourly_avg_key_bound val r hr
    simp only [dateOf] at hout
    simp only [decide_eq_true_eq, dateOf]
    omega
  rw [hnil, List.map_nil]

/-- C2 witness: the amended behavior at the concrete clicked timestamp 0. -/
theorem C2_amended_witness :
    (dateOf 0 < 19723 ∨ 19730 ≤ dateOf 0)
      ∧ (update_graph (fun _ _ => 0) Trigger.chart (some 0) "weekly"
            = (create_daily_chart (fun _ _ => 0) (dateOf 0), "daily")
          ∧ create_daily_chart (fun _ _ => 0) (dateOf 0) = []) :=
  ⟨Or.inl (by decide), C2_amended (fun _ _ => 0) 0 (Or.inl (by decide))⟩

/-- C6: for every in-span calendar date `d` (day numbers 19723–19729,
i.e. 2024-01-01 through 2024-01-07), the rows of `df` with date `d` number
exactly 86400, the pair (d, arithmetic mean of exactly those rows' values)
is a row of `daily_avg`, and the date keys of `daily_avg` are distinct, so
that row is the daily aggregate for `d`. -/
theorem C6_daily_mean (val : ℕ → ℕ → ℚ) (d : ℕ)
    (hd1 : 19723 ≤ d) (hd2 : d < 19730) :
    ((df val).filter fun p => dateOf p.1 = d).length = 86400 ∧
    (d, listMean (((df val).filter fun p => dateOf p.1 = d).map Prod.snd))
        ∈ daily_avg val ∧
    ((daily_avg val).map Prod.fst).Nodup := by
  refine ⟨?_, ?_, ?_⟩
  · rw [df_filter_date val d hd1 hd2]
    simp
  · unfold daily_avg groupMeans
    exact List.mem_map.mpr
      ⟨d, List.mem_dedup.mpr (mem_df_dateKey val d hd1 hd2), rfl⟩
  · unfold daily_avg groupMeans
    rw [List.map_map]
    have hid : (Prod.fst ∘ fun k =>
        (k, listMean (((df val).filter fun p => dateOf p.1 = k).map Prod.snd)))
        = fun k : ℕ => k := rfl
    rw [hid, List.map_id']
    exact List.nodup_dedup _

/-- C6 witness: the daily aggregate facts at the concrete date 19723
(2024-01-01). -/
theorem C6_daily_mean_witness :
    ((19723 : ℕ) ≤ 19723 ∧ (19723 : ℕ) < 19730)
      ∧ (((df (fun _ _ => 0)).filter fun p => dateOf p.1 = 19723).length = 86400
          ∧ (19723, listMean (((df (fun _ _ => 0)).filter
                fun p => dateOf p.1 = 19723).map Prod.snd))
              ∈ daily_avg (fun _ _ => 0)
          ∧ ((daily_avg (fun _ _ => 0)).map Prod.fst).Nodup) :=
  ⟨⟨by decide, by decide⟩,
    C6_daily_mean (fun _ _ => 0) 19723 (by decide) (by decide)⟩

/-- C7: for every in-span (date, hour) — encoded as the absolute hour key
`d * 24 + h` — the rows of `df` in that hour number exactly 3600, the pair
(key, mean of exactly those rows' values) is a row of `hourly_avg`, and
the mean of the 24 hourly means of date `d` equals the daily mean of `d`
(exactly, over `ℚ`), since each hour contains the same sample count. -/
theorem C7_hourly_mean (val : ℕ → ℕ → ℚ) (d h : ℕ)
    (hd1 : 19723 ≤ d) (hd2 : d < 19730) (hh : h < 24) :
    ((df val).filter fun p => p.1 / 3600 = d * 24 + h).length = 3600 ∧
    (d * 24 + h, listMean (((df val).filter
          fun p => p.1 / 3600 = d * 24 + h).map Prod.snd))
        ∈ hourly_avg val ∧
    listMean ((List.range 24).map fun h2 =>
        listMean (((df val).filter fun p => p.1 / 3600 = d * 24 + h2).map
          Prod.snd))
      = listMean (((df val).filter fun p => dateOf p.1 = d).map Prod.snd) := by
  refine ⟨?_, ?_, ?_⟩
  · rw [df_filter_hourkey val d h hd1 hd2 hh]
    simp
  · unfold hourly_avg groupMeans
    exact List.mem_map.mpr ⟨d * 24 + h,
      List.mem_dedup.mpr (mem_df_hourKey val d h hd1 hd2 hh), rfl⟩
  · have hmap : (List.range 24).map (fun h2 =>
        listMean (((df val).filter fun p => p.1 / 3600 = d * 24 + h2).map
          Prod.snd))
        = (List.range 24).map (fun h2 =>
            listMean ((List.range 3600).map
              fun s => val (d - 19723) (h2 * 3600 + s))) := by
      refine List.map_congr_left fun h2 hh2 => ?_
      have hh24 := List.mem_range.mp hh2
      rw [df_filter_hourkey val d h2 hd1 hd2 hh24, List.map_map]
      rfl
    have hdaily : listMean (((df val).filter fun p => dateOf p.1 = d).map
          Prod.snd)
        = listMean ((List.range 86400).map fun s => val (d - 19723) s) := by
      rw [df_filter_date val d hd1 hd2, List.map_map]
      rfl
    rw [hmap, hdaily]
    have hsum : ((List.range 86400).map fun s => val (d - 19723) s).sum
        = ((List.range 24).map fun h2 =>
            ((List.range 3600).map
              fun s => val (d - 19723) (h2 * 3600 + s)).sum).sum := by
      rw [show (86400 : ℕ) = 24 * 3600 from rfl, range_mul_flatMap,
        List.map_flatMap, sum_flatMap_q]
      refine congrArg List.sum (List.map_congr_left fun h2 hh2 => ?_)
      rw [List.map_map]
      rfl
    simp only [listMean, List.length_map, List.length_range]
    rw [sum_map_div_q, div_div, hsum]
    push_cast
    norm_num

/-- C7 witness: the hourly aggregate facts at the concrete date 19723
(2024-01-01), hour 0. -/
theorem C7_hourly_mean_witness :
    ((19723 : ℕ) ≤ 19723 ∧ (19723 : ℕ) < 19730 ∧ (0 : ℕ) < 24)
      ∧ (((df (fun _ _ => 0)).filter
              fun p => p.1 / 3600 = 19723 * 24 + 0).length = 3600
          ∧ (19723 * 24 + 0, listMean (((df (fun _ _ => 0)).filter
                fun p => p.1 / 3600 = 19723 * 24 + 0).map Prod.snd))
              ∈ hourly_avg (fun _ _ => 0)
          ∧ listMean ((List.range 24).map fun h2 =>
                listMean (((df (fun _ _ => 0)).filter
                  fun p => p.1 / 3600 = 19723 * 24 + h2).map Prod.snd))
              = listMean (((df (fun _ _ => 0)).filter
                  fun p => dateOf p.1 = 19723).map Prod.snd)) :=
  ⟨⟨by decide, by decide, by decide⟩,
    C7_hourly_mean (fun _ _ => 0) 19723 0 (by decide) (by decide) (by decide)⟩

/-- C8: for every in-span Hourly state (date `d`, hour `h`), the raw range
returned by `create_hourly_chart` has first timestamp `d` at `h`:00:00,
last timestamp `3599` seconds later (hence strictly less than the start
plus one hour), every timestamp inside the hour window, and exactly 3600
samples. -/
theorem C8_hourly_window (val : ℕ → ℕ → ℚ) (d h : ℕ)
    (hd1 : 19723 ≤ d) (hd2 : d < 19730) (hh : h < 24) :
    (create_hourly_chart val d h).length = 3600 ∧
    ((create_hourly_chart val d h).map Prod.fst).head?
        = some (d * 86400 + h * 3600) ∧
    ((create_hourly_chart val d h).map Prod.fst).getLast?
        = some (d * 86400 + h * 3600 + 3599) ∧
    (∀ p ∈ create_hourly_chart val d h,
        d * 86400 + h * 3600 ≤ p.1 ∧ p.1 < d * 86400 + h * 3600 + 3600) := by
  have hch : create_hourly_chart val d h
      = (List.range 3600).map fun s =>
          (d * 86400 + h * 3600 + s, val (d - 19723) (h * 3600 + s)) :=
    df_filter_inday val d (h * 3600) 3600 hd1 hd2 (by omega)
  refine ⟨?_, ?_, ?_, ?_⟩
  · rw [hch]
    simp
  · rw [hch, List.map_map, head_map_range 3600 _ (by omega)]
    simp
  · rw [hch, List.map_map, getLast_map_range 3600 _ (by omega)]
    simp
  · intro p hp
    rw [hch] at hp
    obtain ⟨s, hs, rfl⟩ := List.mem_map.mp hp
    have := List.mem_range.mp hs
    simp only []
    omega

/-- C8 witness: the window facts at the concrete date 19723 (2024-01-01),
hour 0. -/
theorem C8_hourly_window_witness :
    ((19723 : ℕ) ≤ 19723 ∧ (19723 : ℕ) < 19730 ∧ (0 : ℕ) < 24)
      ∧ ((create_hourly_chart (fun _ _ => 0) 19723 0).length = 3600
          ∧ ((create_hourly_chart (fun _ _ => 0) 19723 0).map Prod.fst).head?
              = some (19723 * 86400 + 0 * 3600)
          ∧ ((create_hourly_chart (fun _ _ => 0) 19723 0).map
                Prod.fst).getLast?
              = some (19723 * 86400 + 0 * 3600 + 3599)
          ∧ (∀ p ∈ create_hourly_chart (fun _ _ => 0) 19723 0,
              19723 * 86400 + 0 * 3600 ≤ p.1
                ∧ p.1 < 19723 * 86400 + 0 * 3600 + 3600)) :=
  ⟨⟨by decide, by decide, by decide⟩,
    C8_hourly_window (fun _ _ => 0) 19723 0 (by decide) (by decide) (by decide)⟩

/-- C10: for any midnight start and any number of days,
`generate_mock_data` produces exactly `num_days * 86400` samples whose
timestamps are `start, start+1, ...` — strictly increasing at one-second
cadence with no gaps and no duplicates — covering exactly the `num_days`
contiguous calendar days starting at the start date. -/
theorem C10_mock_data (start_day num_days : ℕ) (val : ℕ → ℕ → ℚ)
    (hstart : start_day % 86400 = 0) :
    (generate_mock_data start_day num_days val).length = num_days * 86400 ∧
    ((generate_mock_data start_day num_days val).map Prod.fst
        = (List.range (num_days * 86400)).map fun k => start_day + k) ∧
    ((generate_mock_data start_day num_days val).map Prod.fst).Pairwise
        (· < ·) ∧
    (∀ p ∈ generate_mock_data start_day num_days val,
        start_day / 86400 ≤ dateOf p.1
          ∧ dateOf p.1 < start_day / 86400 + num_days) ∧
    (∀ dd : ℕ, start_day / 86400 ≤ dd → dd < start_day / 86400 + num_days →
        ∃ p ∈ generate_mock_data start_day num_days val, dateOf p.1 = dd) := by
  have hgen : generate_mock_data start_day num_days val
      = (List.range num_days).flatMap fun i =>
          (List.range 86400).map fun s => (start_day + i * 86400 + s, val i s) :=
    rfl
  have hmap : (generate_mock_data start_day num_days val).map Prod.fst
      = (List.range (num_days * 86400)).map fun k => start_day + k := by
    rw [hgen, List.map_flatMap, range_mul_flatMap num_days 86400,
      List.map_flatMap]
    refine flatMap_congr_mem _ _ _ fun i hi => ?_
    rw [List.map_map, List.map_map]
    refine List.map_congr_left fun s hs => ?_
    simp only [Function.comp_apply]
    omega
  refine ⟨?_, hmap, ?_, ?_, ?_⟩
  · have hlen := congrArg List.length hmap
    simpa using hlen
  · rw [hmap]
    exact List.Pairwise.map _ (fun a b hab => by omega)
      (List.pairwise_lt_range _)
  · intro p hp
    rw [hgen] at hp
    obtain ⟨i, hi, hp2⟩ := List.mem_flatMap.mp hp
    obtain ⟨s, hs, rfl⟩ := List.mem_map.mp hp2
    have hin := List.mem_range.mp hi
    have hsn := List.mem_range.mp hs
    simp only [dateOf]
    omega
  · intro dd hdd1 hdd2
    refine ⟨(start_day + (dd - start_day / 86400) * 86400,
        val (dd - start_day / 86400) 0), ?_, ?_⟩
    · rw [hgen]
      refine List.mem_flatMap.mpr
        ⟨dd - start_day / 86400, List.mem_range.mpr (by omega), ?_⟩
      refine List.mem_map.mpr ⟨0, List.mem_range.mpr (by omega), ?_⟩
      simp
    · simp only [dateOf]
      omega

/-- C10 witness: the generated-series invariant at the concrete midnight
start 1704067200 (2024-01-01) with 2 days. -/
theorem C10_mock_data_witness :
    (1704067200 % 86400 = 0)
      ∧ ((generate_mock_data 1704067200 2 (fun _ _ => 0)).length = 2 * 86400
          ∧ ((generate_mock_data 1704067200 2 (fun _ _ => 0)).map Prod.fst
              = (List.range (2 * 86400)).map fun k => 1704067200 + k)
          ∧ ((generate_mock_data 1704067200 2 (fun _ _ => 0)).map
                Prod.fst).Pairwise (· < ·)
          ∧ (∀ p ∈ generate_mock_data 1704067200 2 (fun _ _ => 0),
              1704067200 / 86400 ≤ dateOf p.1
                ∧ dateOf p.1 < 1704067200 / 86400 + 2)
          ∧ (∀ dd : ℕ, 1704067200 / 86400 ≤ dd →
              dd < 1704067200 / 86400 + 2 →
              ∃ p ∈ generate_mock_data 1704067200 2 (fun _ _ => 0),
                dateOf p.1 = dd)) :=
  ⟨by decide, C10_mock_data 1704067200 2 (fun _ _ => 0) (by decide)⟩

/-- C9: from the Hourly view, a click at `t` renders
`create_second_chart` at `t.replace(minute=0, second=0)`; that window
start equals `date(t)` at `hour(t)`:00:00 (so the window is always the
first minute of the clicked hour), and the resulting view contains exactly
the raw samples of `df` in the half-open window `[start, start + 60)`. -/
theorem C9_minute_window (val : ℕ → ℕ → ℚ) (t : ℕ) :
    update_graph val Trigger.chart (some t) "hourly"
        = (create_second_chart val (replaceMinSec0 t), "second") ∧
    replaceMinSec0 t = dateOf t * 86400 + hourOf t * 3600 ∧
    minuteOf (replaceMinSec0 t) = 0 ∧
    secondOf (replaceMinSec0 t) = 0 ∧
    (∀ p : ℕ × ℚ, p ∈ create_second_chart val (replaceMinSec0 t) ↔
      p ∈ df val ∧ replaceMinSec0 t ≤ p.1 ∧ p.1 < replaceMinSec0 t + 60) := by
  refine ⟨rfl, ?_, ?_, ?_, fun p => ?_⟩
  · simp only [replaceMinSec0, dateOf, hourOf]; omega
  · simp only [replaceMinSec0, minuteOf]; omega
  · simp only [replaceMinSec0, secondOf]; omega
  · simp [create_second_chart, List.mem_filter]
